import Mathlib

/-!
Verification of the katana MDBX storage layer (dojo repository).

The development shallowly embeds the storage core: the integer key codec,
the plain-table key/value store with read-only and read-write transactions,
the cursor and walker iteration protocol, the environment-open configuration
and the create-tables routine, and an MVCC system model for snapshot
isolation.  Components whose Rust sources are not part of the provided tree
(the codecs, tables, tx and cursor modules) are modelled from the
specification; the environment module (DbEnv::open, DbEnv::create_tables) is
embedded directly from src/crates/katana/storage/db/src/mdbx/mod.rs.
-/

namespace KatanaDb

/-! ## Codec

Modelled from the spec: the codecs module is not in the provided sources.
Integer keys use fixed-width big-endian encoding; decoding checks the byte
length (and, for field elements, the modulus bound) and is fallible. -/

/-- Modelled from the spec: fixed-width big-endian byte encoding of a
natural number. Most significant byte first; width w produces w bytes. -/
def beBytes : Nat → Nat → List Nat
  | 0, _ => []
  | w + 1, n => (n / 256 ^ w) :: beBytes w (n % 256 ^ w)

/-- Modelled from the spec: big-endian byte-sequence decoding into a
natural number, folding bytes from most significant to least. -/
def beDecode (bs : List Nat) : Nat :=
  bs.foldl (fun acc b => acc * 256 + b) 0

/-- Modelled from the spec: the u64 key codec, 8 bytes big-endian. -/
def encodeU64 (n : Nat) : List Nat := beBytes 8 n

/-- Modelled from the spec: decoding a u64 key; fails (None) unless the
byte sequence has exactly 8 bytes each below 256. -/
def decodeU64 (bs : List Nat) : Option Nat :=
  if bs.length = 8 ∧ bs.all (fun b => b < 256) then some (beDecode bs) else none

/-- The STARK field modulus used by the felt value codec. -/
def FELT_PRIME : Nat := 2 ^ 251 + 17 * 2 ^ 192 + 1

/-- Modelled from the spec: the field-element value codec, 32 bytes
big-endian. -/
def encodeFelt (n : Nat) : List Nat := beBytes 32 n

/-- Modelled from the spec: decoding a field element; fails unless the
sequence is exactly 32 bytes, all below 256, and the value is below the
field modulus. -/
def decodeFelt (bs : List Nat) : Option Nat :=
  if bs.length = 32 ∧ bs.all (fun b => b < 256) ∧ beDecode bs < FELT_PRIME then
    some (beDecode bs)
  else none

theorem beBytes_length (w n : Nat) : (beBytes w n).length = w := by
  induction w generalizing n with
  | zero => rfl
  | succ w ih => simp [beBytes, ih]

theorem beBytes_lt (w n : Nat) (hn : n < 256 ^ w) :
    ∀ b ∈ beBytes w n, b < 256 := by
  induction w generalizing n with
  | zero => intro b hb; simp [beBytes] at hb
  | succ w ih =>
    intro b hb
    simp only [beBytes, List.mem_cons] at hb
    rcases hb with hb | hb
    · subst hb
      apply Nat.div_lt_of_lt_mul
      calc n < 256 ^ (w + 1) := hn
      _ = 256 ^ w * 256 := by ring
    · exact ih (n % 256 ^ w) (Nat.mod_lt _ (Nat.pos_pow_of_pos w (by norm_num))) b hb

theorem beDecode_cons (b : Nat) (bs : List Nat) :
    beDecode (b :: bs) = bs.foldl (fun acc x => acc * 256 + x) b := by
  simp [beDecode]

theorem beDecode_aux (w : Nat) : ∀ (n a : Nat), n < 256 ^ w →
    (beBytes w n).foldl (fun acc b => acc * 256 + b) a = a * 256 ^ w + n := by
  induction w with
  | zero =>
    intro n a hn
    interval_cases n
    simp [beBytes]
  | succ w ih =>
    intro n a hn
    have hmod : n % 256 ^ w < 256 ^ w :=
      Nat.mod_lt _ (Nat.pos_pow_of_pos w (by norm_num))
    simp only [beBytes, List.foldl_cons]
    rw [ih (n % 256 ^ w) (a * 256 + n / 256 ^ w) hmod]
    have hdm : 256 ^ w * (n / 256 ^ w) + n % 256 ^ w = n := Nat.div_add_mod n (256 ^ w)
    calc (a * 256 + n / 256 ^ w) * 256 ^ w + n % 256 ^ w
        = a * 256 ^ (w + 1) + (256 ^ w * (n / 256 ^ w) + n % 256 ^ w) := by ring
      _ = a * 256 ^ (w + 1) + n := by rw [hdm]

theorem beDecode_beBytes (w n : Nat) (hn : n < 256 ^ w) :
    beDecode (beBytes w n) = n := by
  have := beDecode_aux w n 0 hn
  simpa [beDecode] using this

/-- C1: for every valid value of a supported key or value type, decoding
the encoding returns the value: the u64 key codec round-trips on every
value below 2^64, and the felt value codec round-trips on every value
below the field modulus. -/
theorem codec_roundtrip (k v : Nat) (hk : k < 2 ^ 64) (hv : v < FELT_PRIME) :
    decodeU64 (encodeU64 k) = some k ∧ decodeFelt (encodeFelt v) = some v := by
  have hk256 : k < 256 ^ 8 := by norm_num at hk ⊢; exact hk
  have hv256 : v < 256 ^ 32 := by
    have : FELT_PRIME < 256 ^ 32 := by norm_num [FELT_PRIME]
    omega
  constructor
  · have hall : (beBytes 8 k).all (fun b => b < 256) = true := by
      rw [List.all_eq_true]
      intro b hb
      simpa using beBytes_lt 8 k hk256 b hb
    simp [decodeU64, encodeU64, beBytes_length, hall, beDecode_beBytes 8 k hk256]
  · have hall : (beBytes 32 v).all (fun b => b < 256) = true := by
      rw [List.all_eq_true]
      intro b hb
      simpa using beBytes_lt 32 v hv256 b hb
    simp [decodeFelt, encodeFelt, beBytes_length, hall, beDecode_beBytes 32 v hv256, hv]

/-- Witness for C1 at concrete inputs. -/
theorem codec_roundtrip_witness :
    decodeU64 (encodeU64 3) = some 3 ∧ decodeFelt (encodeFelt 5) = some 5 :=
  codec_roundtrip 3 5 (by norm_num) (by norm_num [FELT_PRIME])

theorem beBytes_strictMono (w : Nat) : ∀ (m n : Nat), m < n → n < 256 ^ w →
    List.Lex (· < ·) (beBytes w m) (beBytes w n) := by
  induction w with
  | zero =>
    intro m n hmn hn
    interval_cases n
    omega
  | succ w ih =>
    intro m n hmn hn
    have hpow : 0 < 256 ^ w := Nat.pos_pow_of_pos w (by norm_num)
    have hdle : m / 256 ^ w ≤ n / 256 ^ w := Nat.div_le_div_right (Nat.le_of_lt hmn)
    rcases Nat.lt_or_ge (m / 256 ^ w) (n / 256 ^ w) with hd | hd
    · exact List.Lex.rel hd
    · have hdeq : m / 256 ^ w = n / 256 ^ w := Nat.le_antisymm hdle hd
      have hrem : m % 256 ^ w < n % 256 ^ w := by
        have hm := Nat.div_add_mod m (256 ^ w)
        have hn2 := Nat.div_add_mod n (256 ^ w)
        rw [hdeq] at hm
        omega
      simp only [beBytes, hdeq]
      exact List.Lex.cons
        (ih (m % 256 ^ w) (n % 256 ^ w) hrem (Nat.mod_lt _ hpow))

/-- C2: the u64 key encoding is strictly order-preserving under
byte-lexicographic comparison, and encoding is total: every key yields a
well-formed fixed-width byte string of exactly 8 bytes. -/
theorem encode_order_preserving (k1 k2 : Nat) (h1 : k1 < 2 ^ 64)
    (h2 : k2 < 2 ^ 64) (hlt : k1 < k2) :
    List.Lex (· < ·) (encodeU64 k1) (encodeU64 k2) ∧
      (encodeU64 k1).length = 8 ∧ (encodeU64 k2).length = 8 := by
  have h2p : k2 < 256 ^ 8 := by norm_num at h2 ⊢; exact h2
  exact ⟨beBytes_strictMono 8 k1 k2 hlt h2p, beBytes_length 8 k1, beBytes_length 8 k2⟩

/-- Witness for C2 at concrete inputs. -/
theorem encode_order_preserving_witness :
    List.Lex (· < ·) (encodeU64 3) (encodeU64 5) ∧
      (encodeU64 3).length = 8 ∧ (encodeU64 5).length = 8 :=
  encode_order_preserving 3 5 (by norm_num) (by norm_num) (by norm_num)

/-! ## Plain table key/value model

Modelled from the spec: the tx module is not in the provided sources.  A
Plain table is a finite map from keys to values, kept as an association
list sorted by strictly increasing key (the byte-order of the backend
B-tree, which by C2 agrees with numeric order on integer keys). -/

abbrev Key := Nat

abbrev Val := Nat

abbrev Entry := Key × Val

/-- Keys of a table are strictly increasing (hence unique). -/
def SortedKeys (l : List Entry) : Prop :=
  List.Pairwise (fun a b : Entry => a.1 < b.1) l

instance : DecidablePred SortedKeys := fun l =>
  List.instDecidablePairwise l

/-- Modelled from the spec: point lookup in a table. -/
def lookupK : List Entry → Key → Option Val
  | [], _ => none
  | (k0, v0) :: rest, k => if k = k0 then some v0 else lookupK rest k

/-- Modelled from the spec: insert-or-overwrite for a Plain table,
keeping the entries sorted by key. -/
def insertK : List Entry → Key → Val → List Entry
  | [], k, v => [(k, v)]
  | (k0, v0) :: rest, k, v =>
    if k < k0 then (k, v) :: (k0, v0) :: rest
    else if k = k0 then (k, v) :: rest
    else (k0, v0) :: insertK rest k v

/-- Modelled from the spec: remove the entry for a key from a Plain
table (first occurrence; unique when the table is sorted). -/
def removeK : List Entry → Key → List Entry
  | [], _ => []
  | (k0, v0) :: rest, k => if k = k0 then rest else (k0, v0) :: removeK rest k

/-- Modelled from the spec: the committed database state (one table). -/
structure DbState where
  committed : List Entry
deriving DecidableEq

/-- Modelled from the spec: a read-write transaction, holding a private
working copy of the table that becomes visible only at commit. -/
structure TxRw where
  working : List Entry
deriving DecidableEq

/-- Modelled from the spec: a read-only transaction, holding the
immutable snapshot established at its start. -/
structure TxRo where
  snapshot : List Entry
deriving DecidableEq

/-- Modelled from the spec: begin a read-write transaction
(DbEnv::tx_mut). -/
def DbState.txMut (s : DbState) : TxRw := ⟨s.committed⟩

/-- Modelled from the spec: begin a read-only transaction (DbEnv::tx). -/
def DbState.tx (s : DbState) : TxRo := ⟨s.committed⟩

/-- Modelled from the spec: Tx::put, insert-or-overwrite on a Plain
table. -/
def TxRw.put (t : TxRw) (k : Key) (v : Val) : TxRw := ⟨insertK t.working k v⟩

/-- Modelled from the spec: Tx::delete on a Plain table (the optional
value argument is ignored); returns whether anything was deleted. -/
def TxRw.del (t : TxRw) (k : Key) : TxRw × Bool :=
  (⟨removeK t.working k⟩, (lookupK t.working k).isSome)

/-- Modelled from the spec: Tx::commit, durably applying the working
copy as the new committed state. -/
def TxRw.commit (t : TxRw) : DbState := ⟨t.working⟩

/-- Modelled from the spec: Tx::get, a point lookup against the
transaction's snapshot. -/
def TxRo.get (t : TxRo) (k : Key) : Option Val := lookupK t.snapshot k

/-- Modelled from the spec: Tx::entries, the record count of the table
as of the transaction's snapshot. -/
def TxRo.entries (t : TxRo) : Nat := t.snapshot.length

theorem lookupK_insertK_self (l : List Entry) (k : Key) (v : Val) :
    lookupK (insertK l k v) k = some v := by
  induction l with
  | nil => simp [insertK, lookupK]
  | cons e rest ih =>
    obtain ⟨k0, v0⟩ := e
    by_cases hlt : k < k0
    · simp [insertK, hlt, lookupK]
    · by_cases heq : k = k0
      · simp [insertK, hlt, heq, lookupK]
      · have hne : ¬ k = k0 := heq
        simp [insertK, hlt, heq, lookupK, hne, ih]

/-- C3: after put(k, v) on a read-write transaction and a successful
commit, a subsequently begun read transaction's get(k) returns
Some(v). -/
theorem put_commit_get (s : DbState) (k : Key) (v : Val) :
    (((s.txMut).put k v).commit).tx.get k = some v := by
  simp [DbState.txMut, TxRw.put, TxRw.commit, DbState.tx, TxRo.get,
    lookupK_insertK_self]

theorem lookupK_eq_none_of_not_mem (l : List Entry) (k : Key)
    (h : ∀ e ∈ l, e.1 ≠ k) : lookupK l k = none := by
  induction l with
  | nil => rfl
  | cons e rest ih =>
    obtain ⟨k0, v0⟩ := e
    have hne : k ≠ k0 := fun hk => (h (k0, v0) (List.mem_cons_self _ _)) hk.symm
    simp only [lookupK, if_neg hne]
    exact ih (fun e he => h e (List.mem_cons_of_mem _ he))

theorem lookupK_removeK_self (l : List Entry) (k : Key)
    (hs : SortedKeys l) : lookupK (removeK l k) k = none := by
  induction l with
  | nil => rfl
  | cons e rest ih =>
    obtain ⟨k0, v0⟩ := e
    rw [SortedKeys, List.pairwise_cons] at hs
    by_cases heq : k = k0
    · subst heq
      simp only [removeK, if_pos rfl]
      exact lookupK_eq_none_of_not_mem rest k
        (fun e he => Nat.ne_of_gt (hs.1 e he))
    · simp only [removeK, if_neg heq, lookupK, if_neg heq]
      exact ih hs.2

theorem removeK_length (l : List Entry) (k : Key)
    (h : (lookupK l k).isSome) : (removeK l k).length + 1 = l.length := by
  induction l with
  | nil => simp [lookupK] at h
  | cons e rest ih =>
    obtain ⟨k0, v0⟩ := e
    by_cases heq : k = k0
    · simp [removeK, heq]
    · simp only [lookupK, if_neg heq] at h
      simp [removeK, heq, ih h]

theorem insertK_mem_of (l : List Entry) (k : Key) (v : Val) :
    ∀ e ∈ insertK l k v, e ∈ l ∨ e.1 = k := by
  induction l with
  | nil => intro e he; simp [insertK] at he; simp [he]
  | cons e0 rest ih =>
    obtain ⟨k0, v0⟩ := e0
    intro e he
    by_cases hlt : k < k0
    · simp only [insertK, if_pos hlt, List.mem_cons] at he
      rcases he with he | he
      · right; rw [he]
      · left; exact List.mem_cons.mpr he
    · by_cases heq : k = k0
      · simp only [insertK, if_neg hlt, if_pos heq, List.mem_cons] at he
        rcases he with he | he
        · right; rw [he]
        · left; exact List.mem_cons_of_mem _ he
      · simp only [insertK, if_neg hlt, if_neg heq, List.mem_cons] at he
        rcases he with he | he
        · left; rw [he]; exact List.mem_cons_self _ _
        · rcases ih e he with h2 | h2
          · left; exact List.mem_cons_of_mem _ h2
          · right; exact h2

theorem insertK_sorted (l : List Entry) (k : Key) (v : Val)
    (hs : SortedKeys l) : SortedKeys (insertK l k v) := by
  induction l with
  | nil => simp [insertK, SortedKeys]
  | cons e rest ih =>
    obtain ⟨k0, v0⟩ := e
    rw [SortedKeys, List.pairwise_cons] at hs
    by_cases hlt : k < k0
    · rw [SortedKeys]
      simp only [insertK, if_pos hlt]
      rw [List.pairwise_cons]
      refine ⟨?_, List.pairwise_cons.mpr hs⟩
      intro e he
      rcases List.mem_cons.mp he with he | he
      · subst he; exact hlt
      · exact Nat.lt_trans hlt (hs.1 e he)
    · by_cases heq : k = k0
      · subst heq
        rw [SortedKeys]
        have hins : insertK ((k, v0) :: rest) k v = (k, v) :: rest := by
          simp [insertK, hlt]
        rw [hins, List.pairwise_cons]
        exact ⟨hs.1, hs.2⟩
      · rw [SortedKeys]
        simp only [insertK, if_neg hlt, if_neg heq]
        rw [List.pairwise_cons]
        refine ⟨?_, ih hs.2⟩
        intro e he
        have hmem := insertK_mem_of rest k v e he
        rcases hmem with he2 | he2
        · exact hs.1 e he2
        · change k0 < e.1
          rw [he2]
          exact Nat.lt_of_le_of_ne (Nat.le_of_not_lt hlt) (Ne.symm heq)

/-- C4: after put(k, v) and commit, then delete(k) and commit in a later
read-write transaction, a fresh read transaction's get(k) returns None
and the entries() count has decreased by exactly one relative to before
the delete. -/
theorem delete_commit_get_entries (s : DbState) (k : Key) (v : Val)
    (hs : SortedKeys s.committed) :
    ((((((s.txMut).put k v).commit).txMut).del k).1.commit).tx.get k = none ∧
      ((((((s.txMut).put k v).commit).txMut).del k).1.commit).tx.entries + 1 =
        ((((s.txMut).put k v).commit).tx).entries := by
  have hsorted : SortedKeys (insertK s.committed k v) := insertK_sorted _ _ _ hs
  constructor
  · simp only [DbState.txMut, TxRw.put, TxRw.commit, TxRw.del, DbState.tx, TxRo.get]
    exact lookupK_removeK_self _ _ hsorted
  · simp only [DbState.txMut, TxRw.put, TxRw.commit, TxRw.del, DbState.tx, TxRo.entries]
    exact removeK_length _ _ (by rw [lookupK_insertK_self]; rfl)

/-- Witness for C3 is not needed (no hypotheses); witness for C4 at a
concrete state. -/
theorem delete_commit_get_entries_witness :
    ((((((DbState.txMut ⟨[(0, 7)]⟩).put 1 5).commit).txMut).del 1).1.commit).tx.get 1
        = none ∧
      ((((((DbState.txMut ⟨[(0, 7)]⟩).put 1 5).commit).txMut).del 1).1.commit).tx.entries + 1 =
        ((((DbState.txMut ⟨[(0, 7)]⟩).put 1 5).commit).tx).entries :=
  delete_commit_get_entries ⟨[(0, 7)]⟩ 1 5 (by decide)

/-! ## Errors

Embedded from src/crates/katana/storage/db/src/mdbx/mod.rs usage of
crate::error::DatabaseError (the error module itself is not in the
provided sources; the variants are modelled from the spec taxonomy and
the constructors exercised by mod.rs). -/

/-- Modelled from the spec: the relevant backend (libmdbx) error codes. -/
inductive MdbxError
  | KeyExist
  | NotFound
  | Other
deriving DecidableEq

/-- Embedded from src: per-table creation flags, default for Plain
tables and DUP_SORT for duplicate-key tables. -/
inductive DatabaseFlags
  | Default
  | DupSort
deriving DecidableEq

/-- Modelled from the spec: the storage error taxonomy. -/
inductive DatabaseError
  | OpenEnv (e : MdbxError)
  | CreateTable (e : MdbxError)
  | CreateROTx (e : MdbxError)
  | CreateRWTx (e : MdbxError)
  | Write (table : String) (error : MdbxError) (key : List Nat)
  | Read (e : MdbxError)
  | Decode
  | Commit (e : MdbxError)
deriving DecidableEq

/-! ## Cursor

Modelled from the spec: the cursor module is not in the provided
sources.  A cursor over one table holds the table entries (sorted by
key) and an optional current position. -/

/-- Modelled from the spec: a cursor bound to one table of a
transaction; pos = none means unpositioned. -/
structure Cursor where
  entries : List Entry
  pos : Option Nat
deriving DecidableEq

/-- Index of the entry holding a key (meaningful when the key is
present). -/
def idxOfK : List Entry → Key → Nat
  | [], _ => 0
  | (k0, _) :: rest, k => if k = k0 then 0 else idxOfK rest k + 1

/-- Modelled from the spec: Cursor::first, position at the table's first
entry. -/
def Cursor.first (c : Cursor) : Option Entry × Cursor :=
  match c.entries[0]? with
  | some e => (some e, ⟨c.entries, some 0⟩)
  | none => (none, ⟨c.entries, none⟩)

/-- Modelled from the spec: Cursor::next — on an unpositioned cursor it
moves to the first entry, otherwise it advances one entry; at the end of
the table it reports none and the position is unchanged. -/
def Cursor.next (c : Cursor) : Option Entry × Cursor :=
  match c.pos with
  | none => Cursor.first c
  | some i =>
    match c.entries[i + 1]? with
    | some e => (some e, ⟨c.entries, some (i + 1)⟩)
    | none => (none, c)

/-- Modelled from the spec: Cursor::current, read the entry at the
current position without moving. -/
def Cursor.current (c : Cursor) : Option Entry :=
  c.pos.bind fun i => c.entries[i]?

/-- Modelled from the spec: Cursor::seek, position at the first entry
with key greater than or equal to the given key. -/
def Cursor.seek (c : Cursor) (k : Key) : Option Entry × Cursor :=
  match c.entries.findIdx? (fun e => decide (k ≤ e.1)) with
  | some i => (c.entries[i]?, ⟨c.entries, some i⟩)
  | none => (none, c)

/-- Modelled from the spec: Cursor::insert on a Plain table — fails with
a Write error whose cause is KeyExist (carrying the table name and the
encoded key) when the key already holds a value, leaving the cursor
unchanged; otherwise inserts and repositions the cursor at the new
entry. -/
def Cursor.insert (c : Cursor) (tableName : String) (k : Key) (v : Val) :
    Except DatabaseError Cursor :=
  if (lookupK c.entries k).isSome then
    Except.error (DatabaseError.Write tableName MdbxError.KeyExist (encodeU64 k))
  else
    Except.ok ⟨insertK c.entries k v, some (idxOfK (insertK c.entries k v) k)⟩

theorem getElem_idxOfK (l : List Entry) (k : Key) (v : Val)
    (h : lookupK l k = some v) : l[idxOfK l k]? = some (k, v) := by
  induction l with
  | nil => simp [lookupK] at h
  | cons e rest ih =>
    obtain ⟨k0, v0⟩ := e
    by_cases heq : k = k0
    · subst heq
      have hl : lookupK ((k, v0) :: rest) k = some v0 := by simp [lookupK]
      rw [hl, Option.some.injEq] at h
      subst h
      simp [idxOfK]
    · simp only [lookupK, if_neg heq] at h
      simp only [idxOfK, if_neg heq]
      rw [List.getElem?_cons_succ]
      exact ih h

/-- C5: on a Plain table, inserting a key that already holds a value via
a read-write cursor fails with a Write error whose cause is KeyExist,
carrying the table name and the encoded key, the first insert having
succeeded; after the failed attempt, current() still returns the
previously inserted entry. -/
theorem cursor_insert_duplicate (c : Cursor) (name : String) (k : Key)
    (v v2 : Val) (h : lookupK c.entries k = none) :
    ∃ c1, c.insert name k v = Except.ok c1 ∧
      c1.insert name k v2 =
        Except.error (DatabaseError.Write name MdbxError.KeyExist (encodeU64 k)) ∧
      c1.current = some (k, v) := by
  refine ⟨⟨insertK c.entries k v, some (idxOfK (insertK c.entries k v) k)⟩, ?_, ?_, ?_⟩
  · simp [Cursor.insert, h]
  · simp [Cursor.insert, lookupK_insertK_self]
  · simp only [Cursor.current, Option.bind_some]
    exact getElem_idxOfK _ _ _ (lookupK_insertK_self c.entries k v)

/-- Witness for C5 at the concrete table of the db_cursor_insert test:
keys 0..4 present, key 5 inserted twice. -/
theorem cursor_insert_duplicate_witness :
    ∃ c1, Cursor.insert ⟨[(0, 0), (1, 0), (2, 0), (3, 0), (4, 0)], none⟩
        "BlockHashes" 5 0 = Except.ok c1 ∧
      c1.insert "BlockHashes" 5 0 =
        Except.error (DatabaseError.Write "BlockHashes" MdbxError.KeyExist (encodeU64 5)) ∧
      c1.current = some (5, 0) :=
  cursor_insert_duplicate ⟨[(0, 0), (1, 0), (2, 0), (3, 0), (4, 0)], none⟩
    "BlockHashes" 5 0 0 (by decide)

/-- Iterated Cursor::next: nextN c n performs n + 1 successive next
calls, returning the last result and the final cursor. -/
def nextN : Cursor → Nat → Option Entry × Cursor
  | c, 0 => Cursor.next c
  | c, n + 1 => nextN (Cursor.next c).2 n

theorem nextN_positioned (es : List Entry) :
    ∀ (n i : Nat), i + n + 1 < es.length →
      nextN ⟨es, some i⟩ n = (es[i + n + 1]?, ⟨es, some (i + n + 1)⟩) := by
  intro n
  induction n with
  | zero =>
    intro i hi
    have : es[i + 1]?.isSome := by
      simp [List.getElem?_eq_getElem (show i + 1 < es.length by omega)]
    match hm : es[i + 1]? with
    | some e => simp [nextN, Cursor.next, hm]
    | none => rw [hm] at this; simp at this
  | succ n ih =>
    intro i hi
    have h1 : i + 1 + n + 1 < es.length := by omega
    have : es[i + 1]?.isSome := by
      simp [List.getElem?_eq_getElem (show i + 1 < es.length by omega)]
    match hm : es[i + 1]? with
    | some e =>
      have hstep : (Cursor.next ⟨es, some i⟩).2 = ⟨es, some (i + 1)⟩ := by
        simp [Cursor.next, hm]
      have : nextN ⟨es, some i⟩ (n + 1) = nextN ⟨es, some (i + 1)⟩ n := by
        simp [nextN, hstep]
      rw [this, ih (i + 1) h1]
      have harith : i + 1 + n + 1 = i + (n + 1) + 1 := by omega
      rw [harith]
    | none => rw [hm] at this; simp at this

/-- C10: next() on a freshly opened, unpositioned cursor behaves like
first(), and the (n+1)-st successive next() call returns the table's
n-th entry (ascending key order for a sorted table). -/
theorem cursor_next_unpositioned (es : List Entry) (n : Nat)
    (hn : n < es.length) :
    Cursor.next ⟨es, none⟩ = Cursor.first ⟨es, none⟩ ∧
      (nextN ⟨es, none⟩ n).1 = es[n]? := by
  constructor
  · simp [Cursor.next]
  · match n, hn with
    | 0, hn =>
      have : es[0]?.isSome := by
        simp [List.getElem?_eq_getElem (show 0 < es.length by omega)]
      match hm : es[0]? with
      | some e => simp [nextN, Cursor.next, Cursor.first, hm]
      | none => rw [hm] at this; simp at this
    | n + 1, hn =>
      have h0 : es[0]?.isSome := by
        simp [List.getElem?_eq_getElem (show 0 < es.length by omega)]
      match hm : es[0]? with
      | some e =>
        have hstep : (Cursor.next ⟨es, none⟩).2 = ⟨es, some 0⟩ := by
          simp [Cursor.next, Cursor.first, hm]
        have h1 : nextN ⟨es, none⟩ (n + 1) = nextN ⟨es, some 0⟩ n := by
          simp [nextN, hstep]
        have h2 : 0 + n + 1 < es.length := by omega
        rw [h1, nextN_positioned es n 0 h2]
        simp
      | none => rw [hm] at h0; simp at h0

/-- Witness for C10 at a concrete two-entry table. -/
theorem cursor_next_unpositioned_witness :
    Cursor.next ⟨[(1, 10), (2, 20)], none⟩ = Cursor.first ⟨[(1, 10), (2, 20)], none⟩ ∧
      (nextN ⟨[(1, 10), (2, 20)], none⟩ 1).1 = [(1, 10), (2, 20)][1]? :=
  cursor_next_unpositioned [(1, 10), (2, 20)] 1 (by decide)

/-! ## Walker

Modelled from the spec: a lazy, forward-only, non-restartable sequence
over a cursor, with a pending start item (the result of the initiating
seek when a start key was given) and a permanent exhausted flag. -/

/-- Modelled from the spec: the walker state. -/
structure Walker where
  cursor : Cursor
  start : Option Entry
  exhausted : Bool
deriving DecidableEq

/-- Modelled from the spec: Walker::new — with a start key the cursor
seeks to it and the found entry becomes the pending first item;
without one the first pull falls through to Cursor::next. -/
def Walker.new (c : Cursor) (startKey : Option Key) : Walker :=
  match startKey with
  | some k =>
    match Cursor.seek c k with
    | (e, c2) => ⟨c2, e, false⟩
  | none => ⟨c, none, false⟩

/-- Modelled from the spec: one pull of the walker — permanently none
once exhausted; otherwise the pending start item, or else one
Cursor::next step, setting the exhausted flag when the cursor reports no
further entries. -/
def Walker.pull (w : Walker) : Option Entry × Walker :=
  if w.exhausted then (none, w)
  else
    match w.start with
    | some e => (some e, ⟨w.cursor, none, false⟩)
    | none =>
      match Cursor.next w.cursor with
      | (some e, c) => (some e, ⟨c, none, false⟩)
      | (none, c) => (none, ⟨c, none, true⟩)

/-- The list of results of the first n pulls of a walker. -/
def walkerPulls : Walker → Nat → List (Option Entry)
  | _, 0 => []
  | w, n + 1 => (Walker.pull w).1 :: walkerPulls (Walker.pull w).2 n

/-- The walker state after n pulls. -/
def walkerAfter : Walker → Nat → Walker
  | w, 0 => w
  | w, n + 1 => walkerAfter (Walker.pull w).2 n

theorem walkerPulls_exhausted (w : Walker) (h : w.exhausted = true) :
    ∀ n, walkerPulls w n = List.replicate n none := by
  intro n
  induction n generalizing w with
  | zero => rfl
  | succ n ih =>
    have hp : Walker.pull w = (none, w) := by
      simp [Walker.pull, h]
    simp [walkerPulls, hp, List.replicate_succ, ih w h]

/-- C6: over the table holding keys 0, 1, 2 each mapped to the zero
value, a walker started at the beginning yields exactly the three
entries in ascending key order and then none; after the pull that
reports no further entries the walker is permanently exhausted — every
subsequent pull yields none. -/
theorem walker_yields_then_exhausted :
    walkerPulls (Walker.new ⟨[(0, 0), (1, 0), (2, 0)], none⟩ none) 4 =
        [some (0, 0), some (1, 0), some (2, 0), none] ∧
      ∀ n, walkerPulls
          (walkerAfter (Walker.new ⟨[(0, 0), (1, 0), (2, 0)], none⟩ none) 4) n =
        List.replicate n none := by
  constructor
  · rfl
  · exact walkerPulls_exhausted _ rfl

/-! ## Environment configuration

Embedded from src/crates/katana/storage/db/src/mdbx/mod.rs:
DbEnv::open and the geometry/flags/reader constants. -/

/-- Embedded from src: bytes in a gigabyte. -/
def GIGABYTE : Nat := 1024 * 1024 * 1024

/-- Embedded from src: bytes in a terabyte. -/
def TERABYTE : Nat := GIGABYTE * 1024

/-- Embedded from src: reader limit, slightly below the MDBX ceiling of
32767. -/
def DEFAULT_MAX_READERS : Nat := 32000

/-- Embedded from src: sync mode used for read-write environments. -/
inductive SyncMode
  | Durable
deriving DecidableEq

/-- Embedded from src: environment open mode. -/
inductive EnvMode
  | ReadOnly
  | ReadWrite (syncMode : SyncMode)
deriving DecidableEq

/-- Embedded from src: the DbEnvKind argument of DbEnv::open. -/
inductive DbEnvKind
  | RO
  | RW
deriving DecidableEq

/-- Embedded from src: the geometry passed to the environment builder. -/
structure Geometry where
  sizeUpper : Nat
  growthStep : Int
  shrinkThreshold : Option Int
  pageSize : Nat
deriving DecidableEq

/-- Embedded from src: the environment flags passed to the builder. -/
structure EnvironmentFlags where
  mode : EnvMode
  noRdahead : Bool
  coalesce : Bool
deriving DecidableEq

/-- Embedded from src: the configuration the builder accumulates before
opening the environment. -/
structure EnvConfig where
  maxDbs : Nat
  geometry : Geometry
  flags : EnvironmentFlags
  maxReaders : Nat
deriving DecidableEq

/-- Embedded from src: table kind tags (TableType::Table is Plain). -/
inductive TableType
  | Table
  | DupSort
deriving DecidableEq

/-- Modelled from the spec: a schema-registry descriptor (the tables
module is not in the provided sources): a name and a kind. -/
structure TableDef where
  name : String
  tableType : TableType
deriving DecidableEq

/-- Modelled from the spec: the schema registry Tables::ALL; the exact
table list is not in the provided sources, so the two tables exercised
by the embedded tests stand in for it. -/
def TablesALL : List TableDef :=
  [⟨"Headers", TableType.Table⟩, ⟨"BlockHashes", TableType.Table⟩]

/-- Modelled from the spec: the platform default page size
(utils::default_page_size is not in the provided sources). -/
def utilsDefaultPageSize : Nat := 4096

/-- Embedded from src: DbEnv::open — the builder configuration is fixed:
max size one terabyte, growth step four gigabytes, never shrinks,
default page size, read-ahead disabled, coalesce on, reader limit
DEFAULT_MAX_READERS; only the mode depends on the DbEnvKind argument. -/
def DbEnv.open (kind : DbEnvKind) : EnvConfig :=
  { maxDbs := TablesALL.length
    geometry :=
      { sizeUpper := TERABYTE
        growthStep := (4 * GIGABYTE : Int)
        shrinkThreshold := none
        pageSize := utilsDefaultPageSize }
    flags :=
      { mode :=
          match kind with
          | DbEnvKind.RO => EnvMode.ReadOnly
          | DbEnvKind.RW => EnvMode.ReadWrite SyncMode.Durable
        noRdahead := true
        coalesce := true }
    maxReaders := DEFAULT_MAX_READERS }

/-- C7: environment open always configures the backend with the fixed
constants — one terabyte of reserved address space, a four-gigabyte
growth step, a maximum of 32000 concurrent readers, and read-ahead
disabled — independently of the only per-call argument, the open
kind. -/
theorem open_fixed_config (kind : DbEnvKind) :
    (DbEnv.open kind).geometry.sizeUpper = 2 ^ 40 ∧
      (DbEnv.open kind).geometry.growthStep = 4 * 2 ^ 30 ∧
      (DbEnv.open kind).maxReaders = 32000 ∧
      (DbEnv.open kind).flags.noRdahead = true := by
  cases kind <;> exact ⟨by decide, by decide, by decide, rfl⟩

/-! ## create_tables

Embedded from src: DbEnv::create_tables iterates Tables::ALL inside one
internal read-write transaction, declaring each table with default
flags for Plain tables or DUP_SORT for DupSort tables, then commits.
The backend is modelled by an error oracle plus the set of already
existing tables (MDBX create_db opens an existing table, so declaring
is idempotent). -/

/-- Embedded from src: the flags chosen per table kind. -/
def tableFlags : TableType → DatabaseFlags
  | TableType.Table => DatabaseFlags.Default
  | TableType.DupSort => DatabaseFlags.DupSort

/-- Modelled from the spec: the backend error oracle for one
create_tables run. -/
structure Backend where
  beginRwErr : Option MdbxError
  createDbErr : String → Option MdbxError
  commitErr : Option MdbxError

/-- Modelled from the spec: backend create_db — creates the table when
missing, opens it (a no-op on the table set) when present. -/
def createDbStep (st : List (String × DatabaseFlags)) (name : String)
    (flags : DatabaseFlags) : List (String × DatabaseFlags) :=
  if st.any (fun e => e.1 == name) then st else st ++ [(name, flags)]

/-- Embedded from src: the create_db loop body of create_tables over the
registry, threading the backend table set. -/
def createAll (b : Backend) :
    List TableDef → List (String × DatabaseFlags) →
      Except DatabaseError (List (String × DatabaseFlags))
  | [], st => Except.ok st
  | t :: rest, st =>
    match b.createDbErr t.name with
    | some e => Except.error (DatabaseError.CreateTable e)
    | none => createAll b rest (createDbStep st t.name (tableFlags t.tableType))

/-- Embedded from src: DbEnv::create_tables — begin an internal
read-write transaction (error CreateRWTx), declare every registry table
(error CreateTable), commit (error Commit). -/
def createTables (b : Backend) (tables : List TableDef)
    (st : List (String × DatabaseFlags)) :
    Except DatabaseError (List (String × DatabaseFlags)) :=
  match b.beginRwErr with
  | some e => Except.error (DatabaseError.CreateRWTx e)
  | none =>
    match createAll b tables st with
    | Except.error e => Except.error e
    | Except.ok st2 =>
      match b.commitErr with
      | some e => Except.error (DatabaseError.Commit e)
      | none => Except.ok st2

/-- Is the error one of the two kinds the spec names for
create_tables? -/
def isCreateTableOrCommit : DatabaseError → Bool
  | DatabaseError.CreateTable _ => true
  | DatabaseError.Commit _ => true
  | _ => false

/-- Is the error in the full create_tables taxonomy, beginning of the
internal transaction included? -/
def inCreateTablesTaxonomy : DatabaseError → Bool
  | DatabaseError.CreateRWTx _ => true
  | DatabaseError.CreateTable _ => true
  | DatabaseError.Commit _ => true
  | _ => false

/-- A backend whose begin-read-write step fails. -/
def failingBackend : Backend := ⟨some MdbxError.Other, fun _ => none, none⟩

/-- An error-free backend. -/
def cleanBackend : Backend := ⟨none, fun _ => none, none⟩

/-- C8 counterexample: when beginning the internal read-write
transaction fails, create_tables fails with CreateRWTx, which is neither
CreateTable nor Commit — the claim's error list is incomplete. -/
theorem createTables_error_not_in_claimed_list :
    createTables failingBackend TablesALL [] =
        Except.error (DatabaseError.CreateRWTx MdbxError.Other) ∧
      isCreateTableOrCommit (DatabaseError.CreateRWTx MdbxError.Other) = false :=
  ⟨rfl, rfl⟩

theorem createAll_error (b : Backend) :
    ∀ (tables : List TableDef) (st : List (String × DatabaseFlags)) (e : DatabaseError),
      createAll b tables st = Except.error e → ∃ m, e = DatabaseError.CreateTable m := by
  intro tables
  induction tables with
  | nil => intro st e h; simp [createAll] at h
  | cons t rest ih =>
    intro st e h
    simp only [createAll] at h
    match hm : b.createDbErr t.name with
    | some m =>
      rw [hm] at h
      simp at h
      exact ⟨m, h.symm⟩
    | none =>
      rw [hm] at h
      exact ih _ e h

theorem createDbStep_contains_self (st : List (String × DatabaseFlags))
    (name : String) (flags : DatabaseFlags) :
    (createDbStep st name flags).any (fun e => e.1 == name) = true := by
  by_cases h : st.any (fun e => e.1 == name) = true
  · simp [createDbStep, h]
  · simp only [createDbStep]
    rw [if_neg (by simp [h])]
    simp

theorem createDbStep_mono (st : List (String × DatabaseFlags))
    (name name2 : String) (flags : DatabaseFlags)
    (h : st.any (fun e => e.1 == name2) = true) :
    (createDbStep st name flags).any (fun e => e.1 == name2) = true := by
  by_cases hc : st.any (fun e => e.1 == name) = true
  · simpa [createDbStep, hc] using h
  · simp only [createDbStep]
    rw [if_neg (by simp [hc])]
    rw [List.any_append]
    simp [h]

theorem createAll_mono (b : Backend) :
    ∀ (tables : List TableDef) (st st2 : List (String × DatabaseFlags))
      (name : String),
      createAll b tables st = Except.ok st2 →
      st.any (fun e => e.1 == name) = true →
      st2.any (fun e => e.1 == name) = true := by
  intro tables
  induction tables with
  | nil =>
    intro st st2 name h hc
    simp only [createAll, Except.ok.injEq] at h
    rw [← h]
    exact hc
  | cons t rest ih =>
    intro st st2 name h hc
    simp only [createAll] at h
    match hm : b.createDbErr t.name with
    | some m => rw [hm] at h; simp at h
    | none =>
      rw [hm] at h
      exact ih _ st2 name h (createDbStep_mono st t.name name _ hc)

theorem createAll_declares (b : Backend) :
    ∀ (tables : List TableDef) (st st2 : List (String × DatabaseFlags)),
      createAll b tables st = Except.ok st2 →
      ∀ t ∈ tables, st2.any (fun e => e.1 == t.name) = true := by
  intro tables
  induction tables with
  | nil => intro st st2 h t ht; simp at ht
  | cons t0 rest ih =>
    intro st st2 h t ht
    simp only [createAll] at h
    match hm : b.createDbErr t0.name with
    | some m => rw [hm] at h; simp at h
    | none =>
      rw [hm] at h
      rcases List.mem_cons.mp ht with ht | ht
      · subst ht
        exact createAll_mono b rest _ st2 t.name h
          (createDbStep_contains_self st t.name _)
      · exact ih _ st2 h t ht

theorem createAll_ok_err_none (b : Backend) :
    ∀ (tables : List TableDef) (st st2 : List (String × DatabaseFlags)),
      createAll b tables st = Except.ok st2 →
      ∀ t ∈ tables, b.createDbErr t.name = none := by
  intro tables
  induction tables with
  | nil => intro st st2 h t ht; simp at ht
  | cons t0 rest ih =>
    intro st st2 h t ht
    simp only [createAll] at h
    match hm : b.createDbErr t0.name with
    | some m => rw [hm] at h; simp at h
    | none =>
      rw [hm] at h
      rcases List.mem_cons.mp ht with ht | ht
      · subst ht; exact hm
      · exact ih _ st2 h t ht

theorem createDbStep_of_contains (st : List (String × DatabaseFlags))
    (name : String) (flags : DatabaseFlags)
    (h : st.any (fun e => e.1 == name) = true) :
    createDbStep st name flags = st := by
  simp [createDbStep, h]

theorem createAll_id (b : Backend) :
    ∀ (tables : List TableDef) (st : List (String × DatabaseFlags)),
      (∀ t ∈ tables, b.createDbErr t.name = none ∧
        st.any (fun e => e.1 == t.name) = true) →
      createAll b tables st = Except.ok st := by
  intro tables
  induction tables with
  | nil => intro st h; rfl
  | cons t0 rest ih =>
    intro st h
    have h0 := h t0 (List.mem_cons_self _ _)
    simp only [createAll, h0.1]
    rw [createDbStep_of_contains st t0.name _ h0.2]
    exact ih st (fun t ht => h t (List.mem_cons_of_mem _ ht))

/-- C8 amended: create_tables opens one internal read-write transaction,
declares every table from the schema registry with the proper flags, and
commits; it fails only with CreateRWTx (beginning the internal
transaction), CreateTable, or Commit; and it is idempotent — a second
run from the state a successful run produced succeeds and changes
nothing. -/
theorem createTables_amended (b : Backend) (tables : List TableDef)
    (st : List (String × DatabaseFlags)) :
    (∀ st2, createTables b tables st = Except.ok st2 →
      ((∀ t ∈ tables, st2.any (fun e => e.1 == t.name) = true) ∧
        createTables b tables st2 = Except.ok st2)) ∧
    (∀ e, createTables b tables st = Except.error e →
      inCreateTablesTaxonomy e = true) := by
  constructor
  · intro st2 h
    simp only [createTables] at h
    match hb : b.beginRwErr with
    | some e => rw [hb] at h; simp at h
    | none =>
      rw [hb] at h
      match hca : createAll b tables st with
      | Except.error e => rw [hca] at h; simp at h
      | Except.ok st3 =>
        rw [hca] at h
        match hcm : b.commitErr with
        | some e => rw [hcm] at h; simp at h
        | none =>
          rw [hcm] at h
          simp only [Except.ok.injEq] at h
          rw [h] at hca
          refine ⟨createAll_declares b tables st st2 hca, ?_⟩
          have hid : createAll b tables st2 = Except.ok st2 :=
            createAll_id b tables st2 (fun t ht =>
              ⟨createAll_ok_err_none b tables st st2 hca t ht,
                createAll_declares b tables st st2 hca t ht⟩)
          simp [createTables, hb, hid, hcm]
  · intro e h
    simp only [createTables] at h
    match hb : b.beginRwErr with
    | some m =>
      rw [hb] at h
      simp only [Except.error.injEq] at h
      subst h
      rfl
    | none =>
      rw [hb] at h
      match hca : createAll b tables st with
      | Except.error e2 =>
        rw [hca] at h
        simp only [Except.error.injEq] at h
        subst h
        obtain ⟨m, hm⟩ := createAll_error b tables st e2 hca
        subst hm
        rfl
      | Except.ok st3 =>
        rw [hca] at h
        match hcm : b.commitErr with
        | some m =>
          rw [hcm] at h
          simp only [Except.error.injEq] at h
          subst h
          rfl
        | none => rw [hcm] at h; simp at h

/-- Witness for C8: on an error-free backend over an empty table set,
the run declares both registry tables and a second run from the produced
state succeeds unchanged. -/
theorem createTables_amended_witness :
    createTables cleanBackend TablesALL
        [("Headers", DatabaseFlags.Default), ("BlockHashes", DatabaseFlags.Default)] =
      Except.ok
        [("Headers", DatabaseFlags.Default), ("BlockHashes", DatabaseFlags.Default)] :=
  ((createTables_amended cleanBackend TablesALL []).1
    [("Headers", DatabaseFlags.Default), ("BlockHashes", DatabaseFlags.Default)]
    rfl).2

/-! ## Snapshot isolation

Modelled from the spec: the backend's multi-version concurrency
control — any number of read-only transactions, each holding the
snapshot established at its start, running concurrently with at most one
read-write transaction whose effects become committed state only at
commit. -/

/-- Modelled from the spec: the whole-environment state — the committed
table, the single optional writer's working copy, and the snapshots of
the open read-only transactions. -/
structure System where
  committed : List Entry
  writerWorking : Option (List Entry)
  readers : List (List Entry)
deriving DecidableEq

/-- Modelled from the spec: begin a read-only transaction, recording the
committed state at start as its snapshot; returns the reader's index. -/
def System.beginRead (s : System) : System × Nat :=
  ({ s with readers := s.readers ++ [s.committed] }, s.readers.length)

/-- Modelled from the spec: the actions of the concurrent read-write
transaction. -/
inductive WriterOp
  | beginWrite
  | putW (k : Key) (v : Val)
  | delW (k : Key)
  | commitW
deriving DecidableEq

/-- Modelled from the spec: one writer step — begin takes a working copy
of the committed state, put and delete mutate only the working copy, and
commit installs the working copy as the committed state. -/
def System.stepWriter (s : System) : WriterOp → System
  | WriterOp.beginWrite => { s with writerWorking := some s.committed }
  | WriterOp.putW k v =>
    match s.writerWorking with
    | some w => { s with writerWorking := some (insertK w k v) }
    | none => s
  | WriterOp.delW k =>
    match s.writerWorking with
    | some w => { s with writerWorking := some (removeK w k) }
    | none => s
  | WriterOp.commitW =>
    match s.writerWorking with
    | some w => { s with committed := w, writerWorking := none }
    | none => s

/-- Run a sequence of writer steps. -/
def System.runWriter (s : System) (ops : List WriterOp) : System :=
  ops.foldl System.stepWriter s

/-- Modelled from the spec: a get on an open read-only transaction reads
its snapshot. -/
def System.readerGet (s : System) (i : Nat) (k : Key) : Option Val :=
  match s.readers[i]? with
  | some snap => lookupK snap k
  | none => none

theorem stepWriter_readers (s : System) (op : WriterOp) :
    (System.stepWriter s op).readers = s.readers := by
  obtain ⟨c, w, r⟩ := s
  cases op <;> cases w <;> rfl

theorem runWriter_readers (ops : List WriterOp) :
    ∀ s : System, (System.runWriter s ops).readers = s.readers := by
  induction ops with
  | nil => intro s; rfl
  | cons op rest ih =>
    intro s
    show (System.runWriter (System.stepWriter s op) rest).readers = s.readers
    rw [ih (System.stepWriter s op), stepWriter_readers]

/-- C9: a read-only transaction begun before any sequence of concurrent
writer actions — commits included — still reads the snapshot established
at its start: its get(k) equals the lookup in the committed state as of
its begin, no matter what the writer does afterwards. -/
theorem snapshot_isolation (s : System) (ops : List WriterOp) (k : Key) :
    System.readerGet (System.runWriter (System.beginRead s).1 ops)
        (System.beginRead s).2 k = lookupK s.committed k := by
  have hr : (System.runWriter (System.beginRead s).1 ops).readers =
      s.readers ++ [s.committed] := by
    rw [runWriter_readers ops (System.beginRead s).1]
    rfl
  unfold System.readerGet
  rw [hr]
  have hi : (System.beginRead s).2 = s.readers.length := rfl
  rw [hi, List.getElem?_concat_length]

end KatanaDb
